import Mathlib

/-!
Verification development for the fall-detection data pipeline
(`preprocessor.py`, `dataloader.py`).

The Python code is shallowly embedded:
* floating-point values are modelled by `Option ℝ`, where `none` plays the
  role of IEEE NaN (the only NaN source relevant here is pandas
  `mean`/`std` on too-small windows) and real-number arithmetic stands in
  for float arithmetic;
* the filesystem seen by `process_image_sequence` is a tree of named
  entries;
* exceptions escaping a function are modelled with `Except`.
-/

namespace FallDetection

/-- One floating-point cell; `none` models NaN. -/
abbrev EVal := Option ℝ

/-- One accelerometer row `(x, y, z)` after column resolution. -/
abbrev Sample := ℝ × ℝ × ℝ

/-- `np.sqrt(x**2 + y**2 + z**2)` — the signal magnitude vector of one
sample, computed once per sample before windowing
(`preprocessor.py` line 40). -/
noncomputable def smv (s : Sample) : ℝ :=
  Real.sqrt (s.1 ^ 2 + s.2.1 ^ 2 + s.2.2 ^ 2)

/-- pandas `Series.mean()`: NaN (`none`) on an empty series, otherwise the
arithmetic mean. -/
noncomputable def sampleMean (l : List ℝ) : EVal :=
  if l.length = 0 then none else some (l.sum / l.length)

/-- pandas `Series.std()`: the sample standard deviation (denominator
`n - 1`); NaN (`none`) when fewer than two values are present. -/
noncomputable def sampleStd (l : List ℝ) : EVal :=
  if l.length ≤ 1 then none
  else some (Real.sqrt
    (((l.map (fun x => (x - l.sum / l.length) ^ 2)).sum) / ((l.length : ℝ) - 1)))

/-- The feature dictionary built for one window
(`preprocessor.py` lines 48–57), flattened by `list(features.values())`
in Python dict insertion order. -/
noncomputable def windowFeatures (w : List Sample) : List EVal :=
  [sampleMean (w.map (fun s => s.1)),
   sampleMean (w.map (fun s => s.2.1)),
   sampleMean (w.map (fun s => s.2.2)),
   sampleMean (w.map smv),
   sampleStd (w.map (fun s => s.1)),
   sampleStd (w.map (fun s => s.2.1)),
   sampleStd (w.map (fun s => s.2.2)),
   sampleStd (w.map smv)]

/-- Number of elements of Python `range(0, stop, step)` for `step > 0`
(`stop` may be negative, as `len(df) - window_size` can be). -/
def pyRangeLen (stop : ℤ) (step : ℕ) : ℕ :=
  if stop ≤ 0 then 0 else (stop.toNat + step - 1) / step

/-- Python `range(0, stop, step)` for `step > 0`: the multiples of `step`
that are `< stop`. -/
def pyRange (stop : ℤ) (step : ℕ) : List ℕ :=
  (List.range (pyRangeLen stop step)).map (fun k => k * step)

/-- `process_accelerometer_data` after column resolution and SMV
computation (`preprocessor.py` lines 43–60): the loop
`for i in range(0, len(df) - window_size, step)` slices
`df[i : i + window_size]` and extracts the feature vector of each
window. -/
noncomputable def processAccelerometerData
    (rows : List Sample) (windowSize step : ℕ) : List (List EVal) :=
  (pyRange ((rows.length : ℤ) - windowSize) step).map
    (fun i => windowFeatures ((rows.drop i).take windowSize))

theorem length_pyRange (stop : ℤ) (step : ℕ) :
    (pyRange stop step).length = pyRangeLen stop step := by
  simp [pyRange]

theorem mem_pyRange {i : ℕ} {stop : ℤ} {step : ℕ}
    (h : i ∈ pyRange stop step) :
    ∃ k, i = k * step ∧ (i : ℤ) < stop := by
  rcases List.mem_map.1 h with ⟨k, hk, rfl⟩
  rw [List.mem_range] at hk
  refine ⟨k, rfl, ?_⟩
  have hstop : ¬ stop ≤ 0 := by
    intro hle
    simp [pyRangeLen, hle] at hk
  have hstep : 0 < step := by
    by_contra hs
    have : step = 0 := Nat.eq_zero_of_not_pos hs
    subst this
    simp [pyRangeLen, hstop] at hk
  push_neg at hstop
  have hlen : pyRangeLen stop step = (stop.toNat + step - 1) / step := by
    simp [pyRangeLen, not_le.2 hstop]
  rw [hlen] at hk
  have hk' : k + 1 ≤ (stop.toNat + step - 1) / step := hk
  have hmul : (k + 1) * step ≤ (stop.toNat + step - 1) / step * step :=
    Nat.mul_le_mul_right _ hk'
  have hdm : (stop.toNat + step - 1) / step * step ≤ stop.toNat + step - 1 :=
    Nat.div_mul_le_self _ _
  rw [Nat.succ_mul] at hmul
  omega

/-- C1, counterexample: with L = 2 samples, window_size = 1, step = 2 the
loop `range(0, 2 - 1, 2)` runs once, emitting 1 window, while the claimed
formula `max(0, floor((L - W)/S)) = max(0, floor(1/2))` gives 0. -/
theorem c1_counterexample :
    (processAccelerometerData [((0:ℝ), 0, 0), ((0:ℝ), 0, 0)] 1 2).length = 1 ∧
    max 0 (((2:ℤ) - 1) / 2) = 0 := by
  constructor
  · simp [processAccelerometerData, pyRange, pyRangeLen]
  · decide

/-- C1, amended: `process_accelerometer_data` emits exactly
`max(0, ceil((L - W)/S))` windows (0 when `L ≤ W`, else the number of
multiples of `S` strictly below `L - W`, i.e. `⌈(L-W)/S⌉`), and every
window start index is a multiple of `S` strictly below `L - W`. -/
theorem c1_window_count (rows : List Sample) (W S : ℕ) (hS : 0 < S) :
    ((processAccelerometerData rows W S).length =
      if rows.length ≤ W then 0 else (rows.length - W + S - 1) / S) ∧
    (∀ i ∈ pyRange ((rows.length : ℤ) - W) S,
      ∃ k, i = k * S ∧ (i : ℤ) < (rows.length : ℤ) - W) := by
  constructor
  · simp only [processAccelerometerData, List.length_map, length_pyRange, pyRangeLen]
    split_ifs with h1 h2
    all_goals first
      | rfl
      | omega
      | (congr 1; omega)
  · intro i hi
    exact mem_pyRange hi

/-- C1 witness: L=256, W=128, S=64 yields 2 windows; L=128, W=128, S=64
yields 0 windows. -/
theorem c1_witness :
    (processAccelerometerData (List.replicate 256 ((0:ℝ), 0, 0)) 128 64).length = 2 ∧
    (processAccelerometerData (List.replicate 128 ((0:ℝ), 0, 0)) 128 64).length = 0 := by
  have h1 := (c1_window_count (List.replicate 256 ((0:ℝ), 0, 0)) 128 64 (by norm_num)).1
  have h2 := (c1_window_count (List.replicate 128 ((0:ℝ), 0, 0)) 128 64 (by norm_num)).1
  rw [List.length_replicate] at h1 h2
  rw [h1, h2]
  norm_num

theorem sampleStd_of_length_le_one {l : List ℝ} (h : l.length ≤ 1) :
    sampleStd l = none := by
  simp [sampleStd, h]

theorem sampleStd_replicate (n : ℕ) (c : ℝ) (hn : 2 ≤ n) :
    sampleStd (List.replicate n c) = some 0 := by
  have hn1 : ¬ n ≤ 1 := by omega
  have hne : (n : ℝ) ≠ 0 := Nat.cast_ne_zero.mpr (by omega)
  have h1 : (n : ℝ) * c / n = c := by field_simp
  simp [sampleStd, hn1, List.sum_replicate, nsmul_eq_mul, h1]

theorem mem_processAccelerometerData {rows : List Sample} {W S : ℕ}
    {fv : List EVal} (h : fv ∈ processAccelerometerData rows W S) :
    ∃ i : ℕ, (i : ℤ) < (rows.length : ℤ) - W ∧
      fv = windowFeatures ((rows.drop i).take W) := by
  rcases List.mem_map.1 h with ⟨i, hi, rfl⟩
  rcases mem_pyRange hi with ⟨k, _, hlt⟩
  exact ⟨i, hlt, rfl⟩

/-- C2: every window feature vector has exactly 8 fields, laid out as the
means of x, y, z, SMV of its window followed by their sample (n−1)
standard deviations; with window_size 1 the standard-deviation entries
are NaN (`none`), and for a constant sample stream (window_size ≥ 2) they
are exactly 0. -/
theorem c2_feature_vector (rows : List Sample) (W S : ℕ) (fv : List EVal)
    (hfv : fv ∈ processAccelerometerData rows W S) :
    fv.length = 8 ∧
    (∃ i : ℕ, (i : ℤ) < (rows.length : ℤ) - W ∧
      ((rows.drop i).take W).length = W ∧
      fv = [sampleMean (((rows.drop i).take W).map (fun s => s.1)),
            sampleMean (((rows.drop i).take W).map (fun s => s.2.1)),
            sampleMean (((rows.drop i).take W).map (fun s => s.2.2)),
            sampleMean (((rows.drop i).take W).map smv),
            sampleStd (((rows.drop i).take W).map (fun s => s.1)),
            sampleStd (((rows.drop i).take W).map (fun s => s.2.1)),
            sampleStd (((rows.drop i).take W).map (fun s => s.2.2)),
            sampleStd (((rows.drop i).take W).map smv)]) ∧
    (W = 1 → fv.getD 4 (some 0) = none ∧ fv.getD 5 (some 0) = none ∧
             fv.getD 6 (some 0) = none ∧ fv.getD 7 (some 0) = none) ∧
    (∀ c : Sample, 2 ≤ W → (∀ s ∈ rows, s = c) →
      fv.getD 4 (some 1) = some 0 ∧ fv.getD 5 (some 1) = some 0 ∧
      fv.getD 6 (some 1) = some 0 ∧ fv.getD 7 (some 1) = some 0) := by
  rcases mem_processAccelerometerData hfv with ⟨i, hlt, rfl⟩
  have hwlen : ((rows.drop i).take W).length = W := by
    rw [List.length_take, List.length_drop]
    omega
  refine ⟨by simp [windowFeatures], ⟨i, hlt, hwlen, rfl⟩, ?_, ?_⟩
  · intro hW1
    subst hW1
    have h1 : ∀ f : Sample → ℝ, sampleStd (((rows.drop i).take 1).map f) = none := by
      intro f
      exact sampleStd_of_length_le_one (by simp)
    refine ⟨?_, ?_, ?_, ?_⟩ <;>
      simp only [windowFeatures, List.getD_cons_succ, List.getD_cons_zero, h1]
  · intro c hW hconst
    have hwin : ∀ s ∈ (rows.drop i).take W, s = c := fun s hs =>
      hconst s (List.mem_of_mem_drop (List.mem_of_mem_take hs))
    have hrep : (rows.drop i).take W = List.replicate W c :=
      List.eq_replicate_iff.mpr ⟨hwlen, hwin⟩
    refine ⟨?_, ?_, ?_, ?_⟩ <;>
      simp [windowFeatures, hrep, List.map_replicate, sampleStd_replicate W _ hW]

/-- C2 witness: for the stream of three identical samples `(1,1,1)` with
window_size 2, step 1, the single emitted feature vector has 8 fields and
its x standard-deviation entry is exactly 0; with window_size 1 it is
NaN. -/
theorem c2_witness :
    (windowFeatures (List.replicate 2 ((1:ℝ), 1, 1))).length = 8 ∧
    (windowFeatures (List.replicate 2 ((1:ℝ), 1, 1))).getD 4 (some 1) = some 0 := by
  have hmem : windowFeatures (List.replicate 2 ((1:ℝ), 1, 1)) ∈
      processAccelerometerData (List.replicate 3 ((1:ℝ), 1, 1)) 2 1 := by
    have hpr : processAccelerometerData (List.replicate 3 ((1:ℝ), 1, 1)) 2 1
        = [windowFeatures (List.replicate 2 ((1:ℝ), 1, 1))] := by
      simp [processAccelerometerData, pyRange, pyRangeLen, List.range_succ,
        List.take_replicate]
    rw [hpr]
    exact List.mem_singleton.mpr rfl
  have h := c2_feature_vector (List.replicate 3 ((1:ℝ), 1, 1)) 2 1 _ hmem
  refine ⟨h.1, ?_⟩
  exact (h.2.2.2 ((1:ℝ), 1, 1) (by norm_num)
    (fun s hs => List.eq_of_mem_replicate hs)).1

/-- Python `str.lower()` applied characterwise (like `Char.toLower`, it
lowercases the ASCII range, which covers the dataset headers). -/
def lowerChar (c : Char) : Char :=
  if 'A' ≤ c ∧ c ≤ 'Z' then Char.ofNat (c.toNat + 32) else c

/-- The substring test `'acc' in col.lower()` (`preprocessor.py` line 30). -/
def containsAcc (s : String) : Bool :=
  decide ("acc".toList <:+: s.toList.map lowerChar)

/-- A parsed CSV: the header row and the data rows, in file order. -/
structure Table where
  header : List String
  rows : List (List ℝ)

/-- Exceptions that can escape batch production. -/
inductive GenError where
  | unreadableSource
  | shapeMismatch
deriving DecidableEq

/-- Positions (0-based, increasing, i.e. file order) of the header columns
whose names case-insensitively contain `"acc"`
(the list `accel_cols`, `preprocessor.py` line 30). -/
def accColumnIdx (t : Table) : List ℕ :=
  (List.range t.header.length).filter (fun j => containsAcc (t.header.getD j ""))

/-- Column resolution (`preprocessor.py` lines 29–37).  `df[accel_cols]`
keeps every matching column, and the rename
`df.columns = ['acc_x','acc_y','acc_z']` raises a length-mismatch
`ValueError` unless exactly 3 columns remain; the positional fallback
`df.iloc[:, :3]` keeps `min(3, ncols)` columns and the rename likewise
raises when the table has fewer than 3 columns.  A raised exception is
modelled as `.error .shapeMismatch`. -/
noncomputable def selectCols (t : Table) : Except GenError (List Sample) :=
  if 3 ≤ (accColumnIdx t).length then
    if (accColumnIdx t).length = 3 then
      .ok (t.rows.map (fun r =>
        (r.getD ((accColumnIdx t).getD 0 0) 0,
         r.getD ((accColumnIdx t).getD 1 0) 0,
         r.getD ((accColumnIdx t).getD 2 0) 0)))
    else .error .shapeMismatch
  else
    if 3 ≤ t.header.length then
      .ok (t.rows.map (fun r => (r.getD 0 0, r.getD 1 0, r.getD 2 0)))
    else .error .shapeMismatch

/-- What the filesystem offers at an accelerometer path: absent, present
but unparsable (`pd.read_csv` raises), or a parsed table. -/
inductive AccelSource where
  | missing
  | unreadable
  | table (t : Table)

/-- `process_accelerometer_data` seen from its caller: a missing path
returns an empty array (`preprocessor.py` lines 22–24); `pd.read_csv`
raising on an unparsable file propagates (line 27 has no try/except);
otherwise column resolution and windowing run. -/
noncomputable def processAccelFile (src : AccelSource) (W S : ℕ) :
    Except GenError (List (List EVal)) :=
  match src with
  | .missing => .ok []
  | .unreadable => .error .unreadableSource
  | .table t =>
    match selectCols t with
    | .error e => .error e
    | .ok rows => .ok (processAccelerometerData rows W S)

theorem processAccelerometerData_eq_nil {rows : List Sample} {W S : ℕ}
    (h : rows.length ≤ W) : processAccelerometerData rows W S = [] := by
  have h0 : ((rows.length : ℤ) - W) ≤ 0 := by
    omega
  simp [processAccelerometerData, pyRange, pyRangeLen, h0]

/-- C5, counterexample: a table whose header has four columns containing
"acc" makes `process_accelerometer_data` raise (the rename of the four
kept columns to three names fails), so the three-column use the claim
describes does not happen. -/
theorem c5_counterexample :
    containsAcc "acc1" = true ∧ containsAcc "acc2" = true ∧
    containsAcc "acc3" = true ∧ containsAcc "acc4" = true ∧
    selectCols ⟨["acc1", "acc2", "acc3", "acc4"], []⟩ =
      .error .shapeMismatch := by
  have hidx : accColumnIdx ⟨["acc1", "acc2", "acc3", "acc4"], []⟩
      = [0, 1, 2, 3] := by decide
  refine ⟨by decide, by decide, by decide, by decide, ?_⟩
  simp [selectCols, hidx]

/-- C5, amended: when exactly 3 header columns case-insensitively contain
"acc", those three columns, in file order, become x/y/z; when more than
3 match, the function raises; when fewer than 3 match, the first three
columns are used positionally (raising if the table has fewer than 3
columns).  `accColumnIdx` lists exactly the matching positions in
increasing (file) order. -/
theorem c5_column_resolution (t : Table) :
    (∀ j, j ∈ accColumnIdx t ↔
      (j < t.header.length ∧ containsAcc (t.header.getD j "") = true)) ∧
    (accColumnIdx t).Pairwise (· < ·) ∧
    ((accColumnIdx t).length = 3 →
      selectCols t = .ok (t.rows.map (fun r =>
        (r.getD ((accColumnIdx t).getD 0 0) 0,
         r.getD ((accColumnIdx t).getD 1 0) 0,
         r.getD ((accColumnIdx t).getD 2 0) 0)))) ∧
    (3 < (accColumnIdx t).length → selectCols t = .error .shapeMismatch) ∧
    ((accColumnIdx t).length < 3 → 3 ≤ t.header.length →
      selectCols t = .ok (t.rows.map (fun r =>
        (r.getD 0 0, r.getD 1 0, r.getD 2 0)))) ∧
    ((accColumnIdx t).length < 3 → t.header.length < 3 →
      selectCols t = .error .shapeMismatch) := by
  refine ⟨?_, ?_, ?_, ?_, ?_, ?_⟩
  · intro j
    simp [accColumnIdx, List.mem_filter, List.mem_range, and_comm]
  · exact List.Pairwise.filter _ (List.pairwise_lt_range _)
  · intro h3
    simp [selectCols, h3]
  · intro h3
    rw [selectCols]
    rw [if_pos (by omega), if_neg (by omega)]
  · intro hlt hge
    rw [selectCols]
    rw [if_neg (by omega), if_pos hge]
  · intro hlt hlt'
    rw [selectCols]
    rw [if_neg (by omega), if_neg (by omega)]

/-- C5 witness: a header with exactly the three acc-named columns
`Acc_X, ACCY, accz` (plus `time`) resolves to those columns; with no
rows the result is the empty sample list. -/
theorem c5_witness :
    selectCols ⟨["time", "Acc_X", "ACCY", "accz"], []⟩ = .ok [] := by
  have h := (c5_column_resolution ⟨["time", "Acc_X", "ACCY", "accz"], []⟩).2.2.1
  rw [h (by decide)]
  rfl

/-- C8, counterexample: an accelerometer file that exists but cannot be
parsed makes `pd.read_csv` raise, and `process_accelerometer_data` has no
handler, so the UnreadableSource condition surfaces instead of an empty
sequence. -/
theorem c8_counterexample :
    processAccelFile AccelSource.unreadable 128 64 =
      .error GenError.unreadableSource := rfl

/-- C8, amended: a MissingPath returns the empty window sequence without
raising, and an EmptySource (a parsable table with zero rows, or any
stream no longer than one window) likewise yields the empty sequence;
but an UnreadableSource propagates the parse failure, and a structurally
incompatible column layout raises ShapeMismatch — both are hard
failures. -/
theorem c8_failure_policy (W S : ℕ) (t : Table) :
    processAccelFile .missing W S = .ok [] ∧
    processAccelFile .unreadable W S = .error .unreadableSource ∧
    (∀ rows, selectCols t = .ok rows → rows.length ≤ W →
      processAccelFile (.table t) W S = .ok []) ∧
    (∀ e, selectCols t = .error e →
      processAccelFile (.table t) W S = .error e) := by
  refine ⟨rfl, rfl, ?_, ?_⟩
  · intro rows hok hlen
    simp [processAccelFile, hok, processAccelerometerData_eq_nil hlen]
  · intro e herr
    simp [processAccelFile, herr]

/-- C8 witness: a header-only CSV with the standard acc columns (an
EmptySource) degrades to the empty window sequence, as does a missing
path. -/
theorem c8_witness :
    processAccelFile (.table ⟨["acc_x", "acc_y", "acc_z"], []⟩) 128 64 = .ok [] ∧
    processAccelFile .missing 128 64 = .ok [] := by
  have h := c8_failure_policy 128 64 ⟨["acc_x", "acc_y", "acc_z"], []⟩
  have hsel : selectCols ⟨["acc_x", "acc_y", "acc_z"], []⟩ = .ok [] := by
    have hidx : accColumnIdx ⟨["acc_x", "acc_y", "acc_z"], []⟩ = [0, 1, 2] := by
      decide
    simp [selectCols, hidx]
  exact ⟨h.2.2.1 [] hsel (by simp), h.1⟩

/-- Python `s.startswith(p)`. -/
def strStartsWith (s p : String) : Bool :=
  decide (p.toList <+: s.toList)

/-- Python `s.endswith(p)`. -/
def strEndsWith (s p : String) : Bool :=
  decide (p.toList <:+ s.toList)

/-- The hidden-entry test `item.startswith('.')`
(`preprocessor.py` line 78). -/
def isHiddenName (s : String) : Bool := strStartsWith s "."

/-- The eligibility test `f.endswith(('.png', '.jpg', '.jpeg'))`
(`preprocessor.py` line 85). -/
def isImageName (s : String) : Bool :=
  strEndsWith s ".png" || strEndsWith s ".jpg" || strEndsWith s ".jpeg"

/-- `os.path.join` as used here (POSIX, relative second component). -/
def pathJoin (p n : String) : String := p ++ "/" ++ n

/-- Python string comparison: lexicographic on code points. -/
def charListLe : List Char → List Char → Bool
  | [], _ => true
  | _ :: _, [] => false
  | a :: as, b :: bs =>
    if a < b then true else if b < a then false else charListLe as bs

def strLe (a b : String) : Bool := charListLe a.toList b.toList

def insertSorted (x : String) : List String → List String
  | [] => [x]
  | y :: ys => if strLe x y then x :: y :: ys else y :: insertSorted x ys

/-- Python `sorted` on strings (insertion sort; Python's sort is stable,
ordering by code points). -/
def sortStrings : List String → List String
  | [] => []
  | x :: xs => insertSorted x (sortStrings xs)

theorem length_insertSorted (x : String) (l : List String) :
    (insertSorted x l).length = l.length + 1 := by
  induction l with
  | nil => rfl
  | cons y ys ih =>
    rw [insertSorted]
    split_ifs with h
    · rfl
    · simp [ih]

theorem length_sortStrings (l : List String) :
    (sortStrings l).length = l.length := by
  induction l with
  | nil => rfl
  | cons x xs ih =>
    rw [sortStrings, length_insertSorted, ih, List.length_cons]

/-- One entry of a directory listing: a plain file, or a subdirectory
carrying its own listing. -/
inductive FSEntry where
  | file (name : String)
  | dir (name : String) (contents : List FSEntry)

def FSEntry.name : FSEntry → String
  | .file n => n
  | .dir n _ => n

/-- `os.path.isdir(join(dir_path, name))` plus `os.listdir` of that entry:
`none` for a plain file, the listing for a directory. -/
def FSEntry.subListing : FSEntry → Option (List FSEntry)
  | .file _ => none
  | .dir _ cs => some cs

/-- The nested-directory resolution block (`preprocessor.py` lines
76–83): drop dot-prefixed names from the listing, and if exactly one
visible entry remains and it is a directory, move `dir_path` inside it
(once; the block is straight-line code, not a loop). -/
def resolveDir (dirPath : String) (entries : List FSEntry) :
    String × List FSEntry :=
  match entries.filter (fun e => !(isHiddenName e.name)) with
  | [e] =>
    match e.subListing with
    | some cs => (pathJoin dirPath e.name, cs)
    | none => (dirPath, entries)
  | _ => (dirPath, entries)

/-- `frame_files` (`preprocessor.py` line 85): every entry of the resolved
listing whose name ends in `.png`/`.jpg`/`.jpeg` — with no hidden-file
filter at this step — joined to the directory path and sorted. -/
def listFrameFiles (dirPath : String) (entries : List FSEntry) : List String :=
  sortStrings ((entries.filter (fun e => isImageName e.name)).map
    (fun e => pathJoin dirPath e.name))

/-- `np.linspace(0, total - 1, num, dtype=int)` in exact arithmetic:
`num` evenly spaced points from 0 to `total - 1` inclusive (for
`num = 1`, just the start point), truncated to integer indices. -/
def linspaceIdx (total num : ℕ) : List ℕ :=
  if num = 1 then [0]
  else (List.range num).map (fun j => j * (total - 1) / (num - 1))

/-- `process_image_sequence` (`preprocessor.py` lines 67–106), the decoded
frames abstracted by their source paths (resize/normalisation touch
pixel data only).  `dir = none` models `os.path.isdir(dir_path)` being
false. -/
def processImageSequence (dirPath : String) (dir : Option (List FSEntry))
    (numFrames : ℕ) : List String :=
  match dir with
  | none => []
  | some entries =>
    let pe := resolveDir dirPath entries
    let ff := listFrameFiles pe.1 pe.2
    if ff.length = 0 then []
    else (linspaceIdx ff.length numFrames).map (fun i => ff.getD i "")

theorem length_linspaceIdx (total num : ℕ) :
    (linspaceIdx total num).length = num := by
  rw [linspaceIdx]
  split_ifs with h
  · simp [h]
  · simp

theorem getD_map_of_lt {α β : Type} (g : α → β) (l : List α) (i : ℕ)
    (d : β) (d' : α) (h : i < l.length) :
    (l.map g).getD i d = g (l.getD i d') := by
  rw [List.getD_eq_getElem _ _ (by simpa using h),
    List.getD_eq_getElem _ _ h, List.getElem_map]

theorem linspaceIdx_getD_zero (total num : ℕ) (hn : 1 ≤ num) :
    (linspaceIdx total num).getD 0 0 = 0 := by
  rw [linspaceIdx]
  split_ifs with h1
  · rfl
  · rw [getD_map_of_lt _ _ _ _ 0 (by simpa using hn),
      List.getD_eq_getElem _ _ (by simpa using hn), List.getElem_range]
    simp

theorem linspaceIdx_getD_last (total num : ℕ) (hn : 2 ≤ num) :
    (linspaceIdx total num).getD (num - 1) 0 = total - 1 := by
  rw [linspaceIdx, if_neg (by omega),
    getD_map_of_lt _ _ _ _ 0 (by simp; omega)]
  rw [List.getD_eq_getElem _ _ (by simp; omega), List.getElem_range]
  exact Nat.mul_div_cancel_left _ (by omega)

theorem mem_linspaceIdx_lt {total num x : ℕ} (htotal : 0 < total)
    (hx : x ∈ linspaceIdx total num) : x < total := by
  rw [linspaceIdx] at hx
  split_ifs at hx with h1
  · simp at hx
    omega
  · rcases List.mem_map.1 hx with ⟨j, hj, rfl⟩
    rw [List.mem_range] at hj
    have h2 : j * (total - 1) / (num - 1) ≤ (num - 1) * (total - 1) / (num - 1) :=
      Nat.div_le_div_right (Nat.mul_le_mul_right _ (by omega))
    have h3 : (num - 1) * (total - 1) / (num - 1) = total - 1 :=
      Nat.mul_div_cancel_left _ (by omega)
    omega

/-- C3, counterexample: with two eligible frames and n_frames = 1 the
selection `np.linspace(0, 1, 1).astype(int) = [0]` returns only the
first frame, so the selection is not inclusive of the last available
frame. -/
theorem c3_counterexample :
    processImageSequence "d"
        (some [FSEntry.file "a.png", FSEntry.file "b.png"]) 1 = ["d/a.png"] ∧
    "d/b.png" ∉ processImageSequence "d"
        (some [FSEntry.file "a.png", FSEntry.file "b.png"]) 1 ∧
    listFrameFiles "d" [FSEntry.file "a.png", FSEntry.file "b.png"]
      = ["d/a.png", "d/b.png"] :=
  ⟨by decide, by decide, by decide⟩

/-- C3, amended: for a nonempty eligible file list `ff` and `n ≥ 1`,
`process_image_sequence` returns exactly `n` frames, at the
linearly-interpolated integer indices `⌊j·(|ff|-1)/(n-1)⌋`; the first
returned frame is the first available one, and for `n ≥ 2` the last
returned frame is the last available one (for `n = 1` only the first
frame is selected); when the source has fewer than `n` frames the output
repeats some frame. -/
theorem c3_frame_selection (dirPath : String) (entries : List FSEntry)
    (n : ℕ) (ff : List String) (hn : 1 ≤ n)
    (hff : ff = listFrameFiles (resolveDir dirPath entries).1
      (resolveDir dirPath entries).2)
    (hne : ff ≠ []) :
    (processImageSequence dirPath (some entries) n).length = n ∧
    processImageSequence dirPath (some entries) n
      = (linspaceIdx ff.length n).map (fun i => ff.getD i "") ∧
    (processImageSequence dirPath (some entries) n).getD 0 ""
      = ff.getD 0 "" ∧
    (2 ≤ n → (processImageSequence dirPath (some entries) n).getD (n - 1) ""
      = ff.getD (ff.length - 1) "") ∧
    (ff.length < n → ¬ (processImageSequence dirPath (some entries) n).Nodup) := by
  have hlen0 : ff.length ≠ 0 := fun h => hne (List.length_eq_zero.mp h)
  have hout : processImageSequence dirPath (some entries) n
      = (linspaceIdx ff.length n).map (fun i => ff.getD i "") := by
    rw [processImageSequence]
    simp only [← hff]
    rw [if_neg hlen0]
  refine ⟨?_, hout, ?_, ?_, ?_⟩
  · rw [hout, List.length_map, length_linspaceIdx]
  · rw [hout, getD_map_of_lt _ _ _ _ 0 (by rw [length_linspaceIdx]; omega),
      linspaceIdx_getD_zero _ _ hn]
  · intro hn2
    rw [hout, getD_map_of_lt _ _ _ _ 0 (by rw [length_linspaceIdx]; omega),
      linspaceIdx_getD_last _ _ hn2]
  · intro hlt hnd
    rw [hout] at hnd
    have hidx : (linspaceIdx ff.length n).Nodup := hnd.of_map
    have hcard : (linspaceIdx ff.length n).toFinset.card = n := by
      rw [List.toFinset_card_of_nodup hidx, length_linspaceIdx]
    have hsub : (linspaceIdx ff.length n).toFinset ⊆ Finset.range ff.length :=
      fun x hx => Finset.mem_range.mpr
        (mem_linspaceIdx_lt (by omega) (List.mem_toFinset.mp hx))
    have hle := Finset.card_le_card hsub
    rw [hcard, Finset.card_range] at hle
    omega

/-- C3 witness: three frames sampled at n=2 give first and last; a
one-frame source sampled at n=2 repeats the frame. -/
theorem c3_witness :
    (processImageSequence "d" (some [FSEntry.file "b.png", FSEntry.file "a.png",
      FSEntry.file "c.png"]) 2).length = 2 ∧
    (processImageSequence "d" (some [FSEntry.file "b.png", FSEntry.file "a.png",
      FSEntry.file "c.png"]) 2).getD 0 "" = "d/a.png" ∧
    (processImageSequence "d" (some [FSEntry.file "b.png", FSEntry.file "a.png",
      FSEntry.file "c.png"]) 2).getD 1 "" = "d/c.png" ∧
    ¬ (processImageSequence "d" (some [FSEntry.file "z.png"]) 2).Nodup := by
  have h := c3_frame_selection "d"
    [FSEntry.file "b.png", FSEntry.file "a.png", FSEntry.file "c.png"] 2
    ["d/a.png", "d/b.png", "d/c.png"] (by norm_num) (by decide) (by decide)
  have h1 := c3_frame_selection "d" [FSEntry.file "z.png"] 2
    ["d/z.png"] (by norm_num) (by decide) (by decide)
  refine ⟨h.1, ?_, ?_, ?_⟩
  · rw [h.2.2.1]
    rfl
  · rw [h.2.2.2.1 (by norm_num)]
    rfl
  · exact h1.2.2.2.2 (by norm_num)

/-- C6, counterexample: a dot-prefixed name with an image extension is
excluded from the descent decision but not from the frame listing — the
hidden file `.b.png` is selected as a frame. -/
theorem c6_counterexample :
    isHiddenName ".b.png" = true ∧
    processImageSequence "d"
        (some [FSEntry.file "a.png", FSEntry.file ".b.png"]) 2
      = ["d/.b.png", "d/a.png"] :=
  ⟨by decide, by decide⟩

/-- C6, amended: dot-prefixed entries are excluded only when deciding the
single-subdirectory descent: whenever the dot-filtered listing is exactly
one directory entry, `resolveDir` does descend one level into that
entry's own listing; in every case it either descends like that once or
keeps the original listing, never going deeper; the frame listing that
follows filters by image extension alone. -/
theorem c6_descent (dirPath : String) (entries : List FSEntry) :
    (∀ e cs, entries.filter (fun x => !(isHiddenName x.name)) = [e] →
      e.subListing = some cs →
      resolveDir dirPath entries = (pathJoin dirPath e.name, cs)) ∧
    (resolveDir dirPath entries = (dirPath, entries) ∨
      (∃ e cs, entries.filter (fun x => !(isHiddenName x.name)) = [e] ∧
        e.subListing = some cs ∧
        resolveDir dirPath entries = (pathJoin dirPath e.name, cs))) ∧
    (∀ p es, listFrameFiles p es
      = sortStrings ((es.filter (fun e => isImageName e.name)).map
          (fun e => pathJoin p e.name))) := by
  refine ⟨?_, ?_, ?_⟩
  · intro e cs hf he
    simp [resolveDir, hf, he]
  · rcases hf : entries.filter (fun x => !(isHiddenName x.name)) with _ | ⟨e, rest⟩
    · left
      simp [resolveDir, hf]
    · rcases rest with _ | ⟨e2, rest2⟩
      · rcases he : e.subListing with _ | cs
        · left
          simp [resolveDir, hf, he]
        · right
          exact ⟨e, cs, hf, he, by simp [resolveDir, hf, he]⟩
      · left
        simp [resolveDir, hf]
  · intro p es
    rfl

/-- C6 witness: a directory whose only visible entry is the subdirectory
`sub` (next to a hidden `.DS_Store`) is descended into — frames are then
listed from `d/sub`, one level down and no further. -/
theorem c6_witness :
    resolveDir "d" [FSEntry.dir "sub" [FSEntry.file "x.jpg"],
        FSEntry.file ".DS_Store"]
      = ("d/sub", [FSEntry.file "x.jpg"]) ∧
    processImageSequence "d" (some [FSEntry.dir "sub" [FSEntry.file "x.jpg"],
        FSEntry.file ".DS_Store"]) 2
      = ["d/sub/x.jpg", "d/sub/x.jpg"] := by
  have h := (c6_descent "d" [FSEntry.dir "sub" [FSEntry.file "x.jpg"],
    FSEntry.file ".DS_Store"]).1 (FSEntry.dir "sub" [FSEntry.file "x.jpg"])
    [FSEntry.file "x.jpg"] rfl rfl
  exact ⟨h, by decide⟩

/-- NaN-propagating sum (`np.sum` over a column that may contain NaN). -/
noncomputable def evalSum : List EVal → EVal
  | [] => some 0
  | v :: vs =>
    match v, evalSum vs with
    | some a, some b => some (a + b)
    | _, _ => none

/-- `np.mean` of one column: NaN on an empty column, NaN if any entry is
NaN, else the arithmetic mean. -/
noncomputable def evalMean (l : List EVal) : EVal :=
  if l.length = 0 then none
  else
    match evalSum l with
    | some s => some (s / l.length)
    | none => none

/-- `np.mean(accel_features, axis=0)` on the `(k, 8)` array of window
feature vectors: the mean of each of the 8 columns. -/
noncomputable def colMeans (rows : List (List EVal)) : List EVal :=
  (List.range 8).map (fun j => evalMean (rows.map (fun r => r.getD j none)))

/-- `dataloader.py` lines 73–77: the event's accelerometer summary is the
mean across windows when at least one window exists, else `np.zeros(8)`. -/
noncomputable def eventAccelSummary (features : List (List EVal)) : List EVal :=
  if 0 < features.length then colMeans features
  else List.replicate 8 (some 0)

/-- C7: the per-event accelerometer summary is the elementwise mean of the
event's window feature vectors when at least one window exists, and the
all-zero 8-vector when there are none — in particular whenever the stream
is no longer than one window (including the zero-row stream). -/
theorem c7_event_summary (rows : List Sample) (W S : ℕ) :
    (processAccelerometerData rows W S ≠ [] →
      ∀ j, j < 8 →
        (eventAccelSummary (processAccelerometerData rows W S)).getD j none
          = evalMean ((processAccelerometerData rows W S).map
              (fun r => r.getD j none))) ∧
    (processAccelerometerData rows W S = [] →
      eventAccelSummary (processAccelerometerData rows W S)
        = List.replicate 8 (some 0)) ∧
    (rows.length ≤ W →
      eventAccelSummary (processAccelerometerData rows W S)
        = List.replicate 8 (some 0)) := by
  refine ⟨?_, ?_, ?_⟩
  · intro hne j hj
    have hpos : 0 < (processAccelerometerData rows W S).length :=
      List.length_pos.mpr hne
    rw [eventAccelSummary, if_pos hpos, colMeans,
      getD_map_of_lt _ _ _ _ 0 (by simpa using hj),
      List.getD_eq_getElem _ _ (by simpa using hj), List.getElem_range]
  · intro hnil
    rw [hnil]
    rfl
  · intro hle
    rw [processAccelerometerData_eq_nil hle]
    rfl

/-- C7 witness: a zero-row stream and a stream exactly one window long
both summarise to the all-zero 8-vector. -/
theorem c7_witness :
    eventAccelSummary (processAccelerometerData ([] : List Sample) 128 64)
      = List.replicate 8 (some 0) ∧
    eventAccelSummary
        (processAccelerometerData (List.replicate 128 ((1:ℝ), 1, 1)) 128 64)
      = List.replicate 8 (some 0) := by
  refine ⟨(c7_event_summary [] 128 64).2.2 (by simp), ?_⟩
  exact (c7_event_summary (List.replicate 128 ((1:ℝ), 1, 1)) 128 64).2.2
    (by simp)

/-- `__len__` (`dataloader.py` lines 28–30):
`int(np.floor(len(self.event_folders) / self.batch_size))`. -/
def generatorLen (numEvents batchSize : ℕ) : ℕ := numEvents / batchSize

/-- The slice `self.indexes[index*B : (index+1)*B]`
(`dataloader.py` line 35). -/
def batchIndexes (indexes : List ℕ) (batchSize index : ℕ) : List ℕ :=
  (indexes.drop (index * batchSize)).take batchSize

/-- `[self.event_folders[k] for k in indexes]` (`dataloader.py` line 38). -/
def batchEventFolders (folders : List String) (indexes : List ℕ)
    (batchSize index : ℕ) : List String :=
  (batchIndexes indexes batchSize index).map (fun k => folders.getD k "")

/-- C9: the number of batches per epoch is `floor(N / B)` — a partial
trailing batch is never emitted — and each in-range batch is the
contiguous slice of exactly `B` entries of the current index list
starting at position `i·B`. -/
theorem c9_batch_count (N B i : ℕ) (indexes : List ℕ) (folders : List String)
    (hB : 0 < B) (hlen : indexes.length = N) (hi : i < generatorLen N B) :
    generatorLen N B = N / B ∧
    (batchIndexes indexes B i).length = B ∧
    (∀ j, j < B → (batchIndexes indexes B i).getD j 0
      = indexes.getD (i * B + j) 0) ∧
    (batchEventFolders folders indexes B i).length = B := by
  have h1 : (i + 1) * B ≤ N / B * B := Nat.mul_le_mul_right _ hi
  have h2 : N / B * B ≤ N := Nat.div_mul_le_self _ _
  rw [Nat.succ_mul] at h1
  have hblen : (batchIndexes indexes B i).length = B := by
    rw [batchIndexes, List.length_take, List.length_drop, hlen]
    omega
  refine ⟨rfl, hblen, ?_, ?_⟩
  · intro j hj
    have hj' : j < (batchIndexes indexes B i).length := by omega
    have hij : i * B + j < indexes.length := by omega
    rw [List.getD_eq_getElem _ _ hj', List.getD_eq_getElem _ _ hij]
    simp [batchIndexes]
  · rw [batchEventFolders, List.length_map, hblen]

/-- C9 witness: 95 events with batch_size 16 give 5 batches, and batch 0
has exactly 16 entries. -/
theorem c9_witness :
    generatorLen 95 16 = 5 ∧
    (batchIndexes (List.range 95) 16 0).length = 16 := by
  have h := c9_batch_count 95 16 0 (List.range 95) [] (by norm_num)
    (by simp) (by norm_num [generatorLen])
  exact ⟨by norm_num [generatorLen], h.2.1⟩

/-- `self.indexes = np.arange(len(self.event_folders))`
(`dataloader.py` line 25). -/
def initIndexes (numEvents : ℕ) : List ℕ := List.range numEvents

/-- `on_epoch_end` (`dataloader.py` lines 45–48): when shuffling is on,
`np.random.shuffle` rearranges `self.indexes` in place; the rearranged
contents are supplied as `shuffled`. -/
def onEpochEnd (shuffle : Bool) (indexes shuffled : List ℕ) : List ℕ :=
  if shuffle then shuffled else indexes

theorem flatMap_batchIndexes (indexes : List ℕ) (B : ℕ) :
    ∀ k, k * B ≤ indexes.length →
      (List.range k).flatMap (batchIndexes indexes B) = indexes.take (k * B)
  | 0, _ => by simp
  | k + 1, h => by
    have hsm : (k + 1) * B = k * B + B := by ring
    have hk : k * B ≤ indexes.length := by omega
    rw [List.range_succ, List.flatMap_append,
      flatMap_batchIndexes indexes B k hk]
    simp only [List.flatMap_cons, List.flatMap_nil, List.append_nil]
    rw [hsm, List.take_add]
    rfl

/-- C10: the index list starts as `np.arange(N)` (a permutation of
`{0..N-1}`), and any in-place shuffle keeps it one; for a current index
list that is such a permutation, the per-epoch batches are pairwise
disjoint, and their concatenation has no duplicates and exactly
`⌊N/B⌋·B` entries — that many distinct events per epoch. -/
theorem c10_index_permutation (N B : ℕ) (shuffle : Bool)
    (indexes shuffled : List ℕ) (hB : 0 < B)
    (hperm : indexes.Perm (initIndexes N))
    (hshuf : shuffled.Perm indexes) :
    (initIndexes N).Perm (initIndexes N) ∧
    (onEpochEnd shuffle indexes shuffled).Perm (initIndexes N) ∧
    (∀ i j, i < generatorLen N B → j < generatorLen N B → i ≠ j →
      ∀ x, x ∈ batchIndexes indexes B i → x ∉ batchIndexes indexes B j) ∧
    ((List.range (generatorLen N B)).flatMap (batchIndexes indexes B)).Nodup ∧
    ((List.range (generatorLen N B)).flatMap (batchIndexes indexes B)).length
      = generatorLen N B * B := by
  have hlen : indexes.length = N := by
    rw [hperm.length_eq, initIndexes, List.length_range]
  have hnd : indexes.Nodup := hperm.nodup_iff.mpr (List.nodup_range _)
  have hNB : generatorLen N B * B ≤ N := Nat.div_mul_le_self _ _
  have hbind := flatMap_batchIndexes indexes B (generatorLen N B)
    (by omega)
  have hdisj : ∀ i j, i < j → j < generatorLen N B →
      ∀ x, x ∈ batchIndexes indexes B i → x ∉ batchIndexes indexes B j := by
    intro i j hij hj x hxi hxj
    have hto : (i + 1) * B ≤ j * B := Nat.mul_le_mul_right _ (by omega)
    have hxtake : x ∈ indexes.take ((i + 1) * B) := by
      rw [Nat.succ_mul, List.take_add]
      exact List.mem_append_right _ hxi
    have hxdrop : x ∈ indexes.drop (j * B) :=
      List.take_subset _ _ hxj
    exact (List.disjoint_take_drop hnd hto) hxtake hxdrop
  refine ⟨List.Perm.refl _, ?_, ?_, ?_, ?_⟩
  · rw [onEpochEnd]
    split_ifs
    · exact hshuf.trans hperm
    · exact hperm
  · intro i j hi hj hne x hxi
    rcases Nat.lt_or_ge i j with h | h
    · exact hdisj i j h hj x hxi
    · intro hxj
      exact hdisj j i (by omega) hi x hxj hxi
  · rw [hbind]
    exact hnd.sublist (List.take_sublist _ _)
  · rw [hbind, List.length_take, hlen]
    omega

/-- C10 witness: for N=4, B=2 with the permuted index list [2,0,3,1]
(and a further shuffle to [0,1,2,3]), the two batches concatenate to 4
distinct entries and shuffling preserves the permutation invariant. -/
theorem c10_witness :
    ((List.range (generatorLen 4 2)).flatMap (batchIndexes [2, 0, 3, 1] 2)).Nodup ∧
    ((List.range (generatorLen 4 2)).flatMap (batchIndexes [2, 0, 3, 1] 2)).length
      = generatorLen 4 2 * 2 ∧
    (onEpochEnd true [2, 0, 3, 1] [0, 1, 2, 3]).Perm (initIndexes 4) := by
  have h := c10_index_permutation 4 2 true [2, 0, 3, 1] [0, 1, 2, 3]
    (by norm_num) (by decide) (by decide)
  exact ⟨h.2.2.2.1, h.2.2.2.2, h.2.1⟩

/-- What the filesystem offers for one event: its accelerometer source,
its frame directory path and listing, and its label. -/
structure EventSrc where
  accel : AccelSource
  imgPath : String
  imgDir : Option (List FSEntry)
  label : ℕ

instance : Inhabited EventSrc := ⟨⟨.missing, "", none, 0⟩⟩

/-- One row of an assembled batch: the selected frame sequence, the
8-entry accelerometer summary, and the label. -/
structure BatchRow where
  frames : List String
  accelSummary : List EVal
  label : ℕ

instance : Inhabited BatchRow := ⟨⟨[], [], 0⟩⟩

/-- One iteration of the `__data_generation` loop
(`dataloader.py` lines 59–80): the assignment
`X_images[i,] = process_image_sequence(...)` raises a broadcast
`ValueError` — a shape mismatch — unless the returned sequence has
exactly `n_frames` frames (in particular when it is the empty array);
the accelerometer call may itself raise; otherwise the row holds the
frames, the window-mean summary (or zeros), and the label. -/
noncomputable def generateRow (nFrames W S : ℕ) (e : EventSrc) :
    Except GenError BatchRow :=
  if (processImageSequence e.imgPath e.imgDir nFrames).length ≠ nFrames then
    .error .shapeMismatch
  else
    match processAccelFile e.accel W S with
    | .error err => .error err
    | .ok fv =>
      .ok ⟨processImageSequence e.imgPath e.imgDir nFrames,
        eventAccelSummary fv, e.label⟩

/-- `__data_generation` (`dataloader.py` lines 50–83): the batch's events
are processed in order and the first exception aborts the whole batch. -/
noncomputable def dataGeneration (nFrames W S : ℕ) :
    List EventSrc → Except GenError (List BatchRow)
  | [] => .ok []
  | e :: es =>
    match generateRow nFrames W S e with
    | .error err => .error err
    | .ok r =>
      match dataGeneration nFrames W S es with
      | .error err => .error err
      | .ok rs => .ok (r :: rs)

/-- C4, counterexample: a batch of two events where only the first has a
missing frame directory aborts entirely with a shape error — the second
event's row is never produced, so a missing image modality does not
degrade to an empty frame sequence within a surviving batch. -/
theorem c4_counterexample :
    dataGeneration 2 1 1
      [⟨.missing, "x", none, 1⟩,
       ⟨.missing, "d", some [FSEntry.file "a.png", FSEntry.file "b.png"], 0⟩]
      = .error .shapeMismatch := rfl

/-- C4, amended: when every event's frame directory yields exactly
`n_frames` frames and no event's accelerometer source raises, the batch
is produced in full — one row per event, in order — and any event whose
accelerometer file is absent contributes the all-zero 8-vector; but an
event whose image sequence does not fill the fixed image tensor row
(missing directory, or no eligible images) aborts the batch with a shape
error, as does an unreadable accelerometer source. -/
theorem c4_batch_degradation (nFrames W S : ℕ) (events : List EventSrc)
    (h : ∀ e ∈ events,
      (processImageSequence e.imgPath e.imgDir nFrames).length = nFrames ∧
      (processAccelFile e.accel W S).isOk = true) :
    ∃ rows, dataGeneration nFrames W S events = .ok rows ∧
      rows.length = events.length ∧
      (∀ k, k < events.length → (events.getD k default).accel = .missing →
        (rows.getD k default).accelSummary = List.replicate 8 (some 0)) := by
  induction events with
  | nil =>
    exact ⟨[], rfl, rfl, fun k hk _ => absurd hk (by simp)⟩
  | cons e es ih =>
    obtain ⟨himg, hacc⟩ := h e (List.mem_cons_self e es)
    obtain ⟨fv, hfv⟩ : ∃ fv, processAccelFile e.accel W S = .ok fv := by
      cases hp : processAccelFile e.accel W S with
      | ok fv => exact ⟨fv, rfl⟩
      | error err =>
        rw [hp] at hacc
        exact absurd hacc (by simp [Except.isOk, Except.toBool])
    obtain ⟨rows, hrows, hlen, hzero⟩ :=
      ih (fun x hx => h x (List.mem_cons_of_mem _ hx))
    refine ⟨⟨processImageSequence e.imgPath e.imgDir nFrames,
      eventAccelSummary fv, e.label⟩ :: rows, ?_, by simp [hlen], ?_⟩
    · rw [dataGeneration, generateRow, if_neg (by omega), hfv, hrows]
    · intro k hk hmiss
      cases k with
      | zero =>
        rw [List.getD_cons_zero] at hmiss ⊢
        have hfv0 : fv = [] := by
          rw [hmiss] at hfv
          exact (Except.ok.inj hfv).symm
        rw [hfv0]
        rfl
      | succ k' =>
        rw [List.getD_cons_succ] at hmiss ⊢
        exact hzero k' (by simpa using hk) hmiss

/-- C4 witness: a one-event batch with a readable frame directory and an
absent accelerometer file is produced successfully. -/
theorem c4_witness :
    (dataGeneration 2 128 64
      [⟨.missing, "d", some [FSEntry.file "a.png", FSEntry.file "b.png"], 1⟩]).isOk
      = true := by
  obtain ⟨rows, hrows, -, -⟩ := c4_batch_degradation 2 128 64
    [⟨.missing, "d", some [FSEntry.file "a.png", FSEntry.file "b.png"], 1⟩]
    (by
      intro e he
      rw [List.mem_singleton] at he
      subst he
      exact ⟨by decide, rfl⟩)
  rw [hrows]
  rfl
